import Mathlib

/-!
Verification of `aws-assume-role` (`main.go`).

The program assumes an IAM role via STS, builds a child environment from the
returned credential triple plus the filtered parent environment, and runs the
remaining command-line arguments as a child process.

Environment entries are modelled as lists of characters (`Str`), since the
environment builder inspects individual characters (`strings.Cut(e, "=")`).
The whole-program control flow of `main` is modelled as a function `runMain`
from the parsed flags and an oracle for the external world (config load
result, STS response, parent environ, child exit status) to the list of
external calls made, the diagnostics logged, and the process exit code.
`log.Fatal` prints its message and exits with status 1.
-/

namespace AwsAssumeRole

/-- Environment entries and credential values: Go strings, as character lists. -/
abbrev Str := List Char

/-- Embeds `ptr[T any]` (main.go:126-131) at `T = string`:
`reflect.ValueOf(v).IsZero()` holds for a string exactly when it is `""`,
so `ptr` returns `nil` iff the argument is the empty string. -/
def ptrString (v : String) : Option String :=
  if v = "" then none else some v

/-- Embeds `ptr[T any]` (main.go:126-131) at `T = int32`:
the zero value of `int32` is `0`, so `ptr` returns `nil` iff the argument is `0`. -/
def ptrInt32 (v : Int) : Option Int :=
  if v = 0 then none else some v

/-- Floor of the base-2 logarithm with explicit fuel (one unit per halving),
so that the kernel can evaluate it; its specification is proved below. -/
def log2Aux : Nat → Nat → Nat
  | 0, _ => 0
  | fuel + 1, n => if 2 ≤ n then log2Aux fuel (n / 2) + 1 else 0

/-- Floor of the base-2 logarithm of a natural number (`natLog2 0 = 0`). -/
def natLog2 (n : Nat) : Nat := log2Aux n n

/-- Floor of the base-2 logarithm of the positive rational `a / b`. -/
def ratLog2 (a b : Nat) : Int :=
  if b ≤ a then Int.ofNat (natLog2 (a / b))
  else
    if b ≤ a * 2 ^ natLog2 (b / a) then -(natLog2 (b / a) : Int)
    else -((natLog2 (b / a) : Int) + 1)

/-- Floor of a rational number. -/
def ratFloor (y : ℚ) : Int := y.num.fdiv (y.den : Int)

/-- The nearest integer to a rational, ties going to the even integer: the
integer-grid rounding underlying IEEE-754 round-to-nearest-even. -/
def roundHalfEven (y : ℚ) : Int :=
  if 2 * y < 2 * (ratFloor y : ℚ) + 1 then ratFloor y
  else if 2 * (ratFloor y : ℚ) + 1 < 2 * y then ratFloor y + 1
  else if ratFloor y % 2 = 0 then ratFloor y else ratFloor y + 1

/-- The exact value of rounding a positive rational to the nearest IEEE-754
binary64 float: the nearest point of the 53-bit mantissa grid
`m * 2 ^ (e - 52)` at the value's binade `e`, ties to even. Valid in the
normal, non-overflowing range, which covers every value produced by
`Duration.Seconds()` on `int64` durations. -/
def roundNearestPos (x : ℚ) : ℚ :=
  ((roundHalfEven (x / 2 ^ (ratLog2 x.num.toNat x.den - 52)) : ℚ)) *
    2 ^ (ratLog2 x.num.toNat x.den - 52)

/-- Rounding any rational to the nearest binary64 float; round-to-nearest
is symmetric about zero. -/
def roundNearest64 (x : ℚ) : ℚ :=
  if 0 < x then roundNearestPos x
  else if x < 0 then -roundNearestPos (-x)
  else 0

/-- The exact value of Go's `duration.Seconds()` (main.go:76): `duration` is
an `int64` count of nanoseconds and `Seconds()` computes
`float64(d / 1e9) + float64(d % 1e9) / 1e9` in binary64 arithmetic, where
Go's integer `/` and `%` truncate toward zero (`tdiv` / `tmod`), each
`float64` conversion rounds its integer to the nearest float, and the
division (by the exactly representable constant `1e9`) and the addition each
round their exact result to the nearest float. -/
def durationSecondsFloat (ns : Int) : ℚ :=
  roundNearest64 (roundNearest64 ((ns.tdiv 1000000000 : Int) : ℚ) +
    roundNearest64 (roundNearest64 ((ns.tmod 1000000000 : Int) : ℚ) / 1000000000))

/-- Embeds `int32(duration.Seconds())` (main.go:76): the float value of
`Seconds()` truncated toward zero. Go leaves the conversion
implementation-defined when the value is outside `int32` range; every
theorem below stays inside the range where truncation is the behavior. -/
def durationSecondsInt32 (ns : Int) : Int :=
  (durationSecondsFloat ns).num.tdiv ((durationSecondsFloat ns).den : Int)

/-- The temporary credentials returned by `sts.AssumeRole`
(`role.Credentials`, main.go:87-89). -/
structure Credentials where
  accessKeyId : Str
  secretAccessKey : Str
  sessionToken : Str
  deriving DecidableEq

/-- The fields of `sts.AssumeRoleInput` set by main.go:73-81.
Pointer-typed optional fields are modelled as `Option`. -/
structure AssumeRoleInput where
  roleArn : Option String
  roleSessionName : Option String
  durationSeconds : Option Int
  externalId : Option String
  serialNumber : Option String
  sourceIdentity : Option String
  tokenCode : Option String
  deriving DecidableEq

/-- The flag variables after `flag.Parse()` (main.go:22-30), together with the
remaining non-flag arguments `flag.Args()` (main.go:108). -/
structure Flags where
  roleArn : String
  roleSessionName : String
  durationNs : Int
  externalID : String
  serialNumber : String
  tokenCode : String
  sourceIdentity : String
  args : List String

/-- Oracle for the external world observed by one run of `main`:
the nanosecond timestamp used for the default session name (main.go:58),
the result of `config.LoadDefaultConfig` (main.go:66),
the result of `stsClient.AssumeRole` (main.go:73),
`os.Environ()` (main.go:91), and the exit status of the child process when
it runs (`cmd.Run()` returns a non-nil error iff that status is non-zero). -/
structure World where
  nowNano : String
  configResult : Except String Unit
  assumeRoleResult : Except String Credentials
  environ : List Str
  childExit : Nat

/-- External calls made by a run, in order. -/
inductive Event where
  | loadConfig : Event
  | assumeRole : AssumeRoleInput → Event
  | spawn : String → List String → List Str → Event

def isSpawn : Event → Bool
  | .spawn _ _ _ => true
  | _ => false

def isAssumeRole : Event → Bool
  | .assumeRole _ => true
  | _ => false

/-- The `sts.AssumeRoleInput` literal of main.go:73-81, with every field
wrapped in `ptr` and the duration converted by `int32(duration.Seconds())`. -/
def mkAssumeRoleInput (f : Flags) (sessionName : String) : AssumeRoleInput :=
  { roleArn := ptrString f.roleArn
    roleSessionName := ptrString sessionName
    durationSeconds := ptrInt32 (durationSecondsInt32 f.durationNs)
    externalId := ptrString f.externalID
    serialNumber := ptrString f.serialNumber
    sourceIdentity := ptrString f.sourceIdentity
    tokenCode := ptrString f.tokenCode }

/-- The `switch k` denylist of main.go:97-102. -/
def denylist : List Str :=
  ["AWS_ROLE_ARN".data,
   "AWS_ACCESS_KEY_ID".data,
   "AWS_SECRET_ACCESS_KEY".data,
   "AWS_SESSION_TOKEN".data,
   "AWS_WEB_IDENTITY_TOKEN_FILE".data]

/-- The three entries injected first (main.go:86-90). -/
def injectedEnv (c : Credentials) : List Str :=
  ["AWS_ACCESS_KEY_ID=".data ++ c.accessKeyId,
   "AWS_SECRET_ACCESS_KEY=".data ++ c.secretAccessKey,
   "AWS_SESSION_TOKEN=".data ++ c.sessionToken]

/-- The `found` result of `strings.Cut(e, "=")` (main.go:92): whether the
entry contains `'='`. -/
def hasEq (e : Str) : Bool :=
  e.contains '='

/-- The `before` result of `strings.Cut(e, "=")` (main.go:92): everything
before the first `'='` (the whole entry if there is none). -/
def cutKey (e : Str) : Str :=
  e.takeWhile (fun c => c ≠ '=')

/-- The loop of main.go:91-106 over `os.Environ()`: each entry is cut at the
first `'='`; a missing `'='` is fatal (`invalid environ`); entries whose key
is in the denylist are skipped; all others are appended in order. -/
def filterEnviron : List Str → Except String (List Str)
  | [] => .ok []
  | e :: rest =>
    if hasEq e then
      match filterEnviron rest with
      | .error msg => .error msg
      | .ok tail =>
        if cutKey e ∈ denylist then .ok tail else .ok (e :: tail)
    else .error "invalid environ"

/-- The child environment of main.go:86-106: the three injected credential
entries followed by the filtered parent environment. -/
def buildEnv (c : Credentials) (environ : List Str) : Except String (List Str) :=
  match filterEnviron environ with
  | .error msg => .error msg
  | .ok rest => .ok (injectedEnv c ++ rest)

/-- The control flow of `main` (main.go:42-124) as a function of the flags
and the world oracle. Records the external calls in order, the diagnostics
written by `log.Fatal` / `log.Println`, and the process exit status
(`log.Fatal` exits with status 1; `os.Exit(0)` after `no commands`;
the child failure message is Go's `exit status N`). -/
def runMain (f : Flags) (w : World) : List Event × List String × Nat :=
  if f.roleArn = "" then
    ([], ["role-arn is required"], 1)
  else
    let sessionName := if f.roleSessionName = "" then w.nowNano else f.roleSessionName
    match w.configResult with
    | .error msg => ([.loadConfig], [msg], 1)
    | .ok _ =>
      let input := mkAssumeRoleInput f sessionName
      match w.assumeRoleResult with
      | .error msg => ([.loadConfig, .assumeRole input], [msg], 1)
      | .ok c =>
        match buildEnv c w.environ with
        | .error msg => ([.loadConfig, .assumeRole input], [msg], 1)
        | .ok env =>
          match f.args with
          | [] => ([.loadConfig, .assumeRole input], ["no commands"], 0)
          | prog :: rest =>
            if w.childExit = 0 then
              ([.loadConfig, .assumeRole input, .spawn prog rest env], [], 0)
            else
              ([.loadConfig, .assumeRole input, .spawn prog rest env],
               ["exit status " ++ toString w.childExit], 1)

/-- The calls made by a run. -/
def callsOf (f : Flags) (w : World) : List Event := (runMain f w).1

/-- The diagnostics logged by a run. -/
def logsOf (f : Flags) (w : World) : List String := (runMain f w).2.1

/-- The process exit status of a run. -/
def exitOf (f : Flags) (w : World) : Nat := (runMain f w).2.2

/-- The keys of the three injected entries. -/
def injectedKeys : List Str :=
  ["AWS_ACCESS_KEY_ID".data, "AWS_SECRET_ACCESS_KEY".data, "AWS_SESSION_TOKEN".data]

/-- The Boolean predicate deciding whether a parent entry survives filtering. -/
def keptEntry (e : Str) : Bool :=
  decide (cutKey e ∉ denylist)

/-- Concrete flags used by witnesses: a set role ARN and one command argument. -/
def sampleFlags : Flags :=
  { roleArn := "arn:aws:iam::123456789012:role/demo"
    roleSessionName := "s"
    durationNs := 900000000000
    externalID := ""
    serialNumber := ""
    tokenCode := ""
    sourceIdentity := ""
    args := ["env"] }

/-- Concrete flags with a half-second duration. -/
def subsecondFlags : Flags :=
  { sampleFlags with durationNs := 500000000 }

/-- Concrete flags whose duration is 16777216 s (2^24 s) plus 999999999 ns. -/
def overflowFlags : Flags :=
  { sampleFlags with durationNs := 16777216999999999 }

/-- Concrete world used by witnesses: all external steps succeed, child exits 0. -/
def worldOk : World :=
  { nowNano := "1"
    configResult := .ok ()
    assumeRoleResult := .ok ⟨"a".data, "b".data, "c".data⟩
    environ := []
    childExit := 0 }

/-- Concrete world whose child exits with status 2. -/
def worldExit2 : World :=
  { worldOk with childExit := 2 }

/-- Concrete world whose parent environment has an entry without `'='`. -/
def worldBadEnv : World :=
  { worldOk with environ := ["NOEQUALS".data] }

theorem cutKey_key_append (k v : Str) (h : '=' ∉ k) : cutKey (k ++ '=' :: v) = k := by
  induction k with
  | nil => simp [cutKey]
  | cons c k ih =>
    have hc : ¬ c = '=' := fun hc => h (by simp [hc])
    have hk : '=' ∉ k := fun hk => h (List.mem_cons_of_mem _ hk)
    simp only [List.cons_append, cutKey, List.takeWhile_cons]
    simpa [hc, cutKey] using ih hk

theorem cutKey_access (v : Str) :
    cutKey ("AWS_ACCESS_KEY_ID=".data ++ v) = "AWS_ACCESS_KEY_ID".data := by
  rw [show "AWS_ACCESS_KEY_ID=".data = "AWS_ACCESS_KEY_ID".data ++ ['='] from by decide,
    List.append_assoc]
  exact cutKey_key_append _ _ (by decide)

theorem cutKey_secret (v : Str) :
    cutKey ("AWS_SECRET_ACCESS_KEY=".data ++ v) = "AWS_SECRET_ACCESS_KEY".data := by
  rw [show "AWS_SECRET_ACCESS_KEY=".data = "AWS_SECRET_ACCESS_KEY".data ++ ['='] from by decide,
    List.append_assoc]
  exact cutKey_key_append _ _ (by decide)

theorem cutKey_token (v : Str) :
    cutKey ("AWS_SESSION_TOKEN=".data ++ v) = "AWS_SESSION_TOKEN".data := by
  rw [show "AWS_SESSION_TOKEN=".data = "AWS_SESSION_TOKEN".data ++ ['='] from by decide,
    List.append_assoc]
  exact cutKey_key_append _ _ (by decide)

theorem injectedEnv_map_cutKey (c : Credentials) :
    (injectedEnv c).map cutKey = injectedKeys := by
  simp only [injectedEnv, List.map_cons, List.map_nil]
  rw [cutKey_access, cutKey_secret, cutKey_token]
  rfl

theorem filterEnviron_ok (E : List Str) (hE : ∀ e ∈ E, hasEq e = true) :
    filterEnviron E = .ok (E.filter keptEntry) := by
  induction E with
  | nil => rfl
  | cons e rest ih =>
    have he : hasEq e = true := hE e (List.mem_cons_self ..)
    have hr := ih (fun x hx => hE x (List.mem_cons_of_mem _ hx))
    simp only [filterEnviron, he, if_true, hr]
    by_cases hd : cutKey e ∈ denylist
    · simp [hd, List.filter_cons, keptEntry]
    · simp [hd, List.filter_cons, keptEntry]

theorem filterEnviron_error (E : List Str) (e : Str) (he : e ∈ E) (hne : hasEq e = false) :
    filterEnviron E = .error "invalid environ" := by
  induction E with
  | nil => cases he
  | cons a rest ih =>
    rcases List.mem_cons.1 he with rfl | hmem
    · simp [filterEnviron, hne]
    · by_cases ha : hasEq a
      · simp [filterEnviron, ha, ih hmem]
      · simp [filterEnviron, ha]

theorem buildEnv_ok_hasEq (c : Credentials) (E env : List Str)
    (hok : buildEnv c E = .ok env) : ∀ e ∈ E, hasEq e = true := by
  intro e he
  by_contra h
  have hf : hasEq e = false := by simpa using h
  rw [buildEnv, filterEnviron_error E e he hf] at hok
  cases hok

theorem buildEnv_ok_eq (c : Credentials) (E env : List Str)
    (hok : buildEnv c E = .ok env) :
    env = injectedEnv c ++ E.filter keptEntry := by
  rw [buildEnv, filterEnviron_ok E (buildEnv_ok_hasEq c E env hok)] at hok
  exact (Except.ok.inj hok).symm

theorem injectedEnv_pairwise (c : Credentials) :
    (injectedEnv c).Pairwise (fun a b => cutKey a ≠ cutKey b) := by
  have h : ((injectedEnv c).map cutKey).Pairwise (fun a b : Str => a ≠ b) := by
    rw [injectedEnv_map_cutKey]
    decide
  exact List.pairwise_map.1 h

theorem cutKey_injectedEnv_mem_denylist (c : Credentials) (a : Str)
    (ha : a ∈ injectedEnv c) : cutKey a ∈ denylist := by
  simp only [injectedEnv, List.mem_cons, List.not_mem_nil, or_false] at ha
  rcases ha with rfl | rfl | rfl
  · rw [cutKey_access]; decide
  · rw [cutKey_secret]; decide
  · rw [cutKey_token]; decide

theorem cutKey_filter_not_denylist (E : List Str) (b : Str)
    (hb : b ∈ E.filter keptEntry) : cutKey b ∉ denylist := by
  have := (List.mem_filter.1 hb).2
  rwa [keptEntry, decide_eq_true_iff] at this

/-- Claim C1: for every parent environment whose entries all contain `'='`, the
built child environment starts with exactly the three injected credential
entries, contains exactly one entry keyed by each of the three injected
credential keys, and contains no entry with a denylisted key other than
those three injected entries. -/
theorem env_injected_exactly_once_first (c : Credentials) (E : List Str)
    (hE : ∀ e ∈ E, hasEq e = true) :
    ∃ env, buildEnv c E = .ok env ∧
      env.take 3 = injectedEnv c ∧
      (∀ k ∈ injectedKeys, env.countP (fun e => decide (cutKey e = k)) = 1) ∧
      env.filter (fun e => decide (cutKey e ∈ denylist)) = injectedEnv c := by
  refine ⟨injectedEnv c ++ E.filter keptEntry, ?_, ?_, ?_, ?_⟩
  · rw [buildEnv, filterEnviron_ok E hE]
  · rfl
  · intro k hk
    rw [List.countP_append]
    have hinj : (injectedEnv c).countP (fun e => decide (cutKey e = k)) =
        injectedKeys.countP (fun s => decide (s = k)) := by
      rw [← injectedEnv_map_cutKey c, List.countP_map]
      rfl
    have hkd : k ∈ denylist := by
      have hsub : ∀ x ∈ injectedKeys, x ∈ denylist := by decide
      exact hsub k hk
    have hfil : (E.filter keptEntry).countP (fun e => decide (cutKey e = k)) = 0 := by
      rw [List.countP_eq_zero]
      intro a ha hka
      exact cutKey_filter_not_denylist E a ha (of_decide_eq_true hka ▸ hkd)
    rw [hinj, hfil]
    have hk' : k = "AWS_ACCESS_KEY_ID".data ∨ k = "AWS_SECRET_ACCESS_KEY".data ∨
        k = "AWS_SESSION_TOKEN".data := by simpa [injectedKeys] using hk
    rcases hk' with rfl | rfl | rfl <;> decide
  · rw [List.filter_append]
    have h1 : (injectedEnv c).filter (fun e => decide (cutKey e ∈ denylist)) =
        injectedEnv c := by
      rw [List.filter_eq_self]
      intro a ha
      exact decide_eq_true (cutKey_injectedEnv_mem_denylist c a ha)
    have h2 : (E.filter keptEntry).filter (fun e => decide (cutKey e ∈ denylist)) = [] := by
      rw [List.filter_eq_nil_iff]
      intro a ha hda
      exact cutKey_filter_not_denylist E a ha (of_decide_eq_true hda)
    rw [h1, h2, List.append_nil]

/-- Witness for C1: the guarantee evaluated on a concrete parent environment. -/
theorem env_injected_exactly_once_first_witness :
    (∀ e ∈ (["HOME=/root".data, "AWS_SESSION_TOKEN=old".data] : List Str), hasEq e = true) ∧
    (∃ env, buildEnv ⟨"AKID".data, "SECRET".data, "TOKEN".data⟩
        ["HOME=/root".data, "AWS_SESSION_TOKEN=old".data] = .ok env ∧
      env.take 3 = injectedEnv ⟨"AKID".data, "SECRET".data, "TOKEN".data⟩ ∧
      (∀ k ∈ injectedKeys, env.countP (fun e => decide (cutKey e = k)) = 1) ∧
      env.filter (fun e => decide (cutKey e ∈ denylist)) =
        injectedEnv ⟨"AKID".data, "SECRET".data, "TOKEN".data⟩) :=
  ⟨by decide, env_injected_exactly_once_first _ _ (by decide)⟩

/-- Claim C2: when no parent entry has a denylisted key (and every entry contains
`'='`), the built environment is exactly the three injected entries followed
by the parent environment unchanged, in its original order. -/
theorem env_clean_parent_preserved (c : Credentials) (E : List Str)
    (hE : ∀ e ∈ E, hasEq e = true) (hden : ∀ e ∈ E, cutKey e ∉ denylist) :
    buildEnv c E = .ok (injectedEnv c ++ E) := by
  have hkeep : E.filter keptEntry = E :=
    List.filter_eq_self.2 (fun a ha => decide_eq_true (hden a ha))
  rw [buildEnv, filterEnviron_ok E hE, hkeep]

/-- Witness for C2: a concrete clean parent environment passes through unchanged. -/
theorem env_clean_parent_preserved_witness :
    (∀ e ∈ (["HOME=/root".data, "USER=me".data] : List Str), hasEq e = true) ∧
    (∀ e ∈ (["HOME=/root".data, "USER=me".data] : List Str), cutKey e ∉ denylist) ∧
    buildEnv ⟨"AKID".data, "SECRET".data, "TOKEN".data⟩ ["HOME=/root".data, "USER=me".data] =
      .ok (injectedEnv ⟨"AKID".data, "SECRET".data, "TOKEN".data⟩ ++
        ["HOME=/root".data, "USER=me".data]) :=
  ⟨by decide, by decide, env_clean_parent_preserved _ _ (by decide) (by decide)⟩

/-- Counterexample for C3: a parent environment with two entries sharing the key
`DUP` yields a built environment whose keys are not pairwise distinct, so
"keys unique by construction" fails for an arbitrary parent environment. -/
theorem env_distinct_keys_counterexample :
    buildEnv ⟨"a".data, "b".data, "c".data⟩ ["DUP=1".data, "DUP=2".data] =
      .ok (injectedEnv ⟨"a".data, "b".data, "c".data⟩ ++ ["DUP=1".data, "DUP=2".data]) ∧
    ¬ (injectedEnv ⟨"a".data, "b".data, "c".data⟩ ++
        ["DUP=1".data, "DUP=2".data]).Pairwise (fun a b => cutKey a ≠ cutKey b) := by
  constructor
  · rfl
  · decide

/-- Claim C3 (amended): the built environment has pairwise-distinct keys whenever the
parent environment itself has pairwise-distinct keys (the construction never
introduces a duplicate, but duplicates already present among surviving parent
entries are preserved). -/
theorem env_distinct_keys_of_distinct_parent (c : Credentials) (E : List Str)
    (hE : ∀ e ∈ E, hasEq e = true)
    (hdist : E.Pairwise (fun a b => cutKey a ≠ cutKey b)) :
    ∃ env, buildEnv c E = .ok env ∧
      env.Pairwise (fun a b => cutKey a ≠ cutKey b) := by
  refine ⟨injectedEnv c ++ E.filter keptEntry, by rw [buildEnv, filterEnviron_ok E hE], ?_⟩
  rw [List.pairwise_append]
  refine ⟨injectedEnv_pairwise c, hdist.sublist (List.filter_sublist _), ?_⟩
  intro a ha b hb h
  exact cutKey_filter_not_denylist E b hb (h ▸ cutKey_injectedEnv_mem_denylist c a ha)

/-- Witness for C3: the amended statement evaluated on a concrete distinct-key
parent environment. -/
theorem env_distinct_keys_of_distinct_parent_witness :
    (∀ e ∈ (["HOME=/root".data, "USER=me".data] : List Str), hasEq e = true) ∧
    (["HOME=/root".data, "USER=me".data] : List Str).Pairwise
      (fun a b => cutKey a ≠ cutKey b) ∧
    (∃ env, buildEnv ⟨"k".data, "s".data, "t".data⟩ ["HOME=/root".data, "USER=me".data] =
        .ok env ∧ env.Pairwise (fun a b => cutKey a ≠ cutKey b)) :=
  ⟨by decide, by decide,
    env_distinct_keys_of_distinct_parent _ _ (by decide) (by decide)⟩

/-- Counterexample for C4: with a child exiting with status 2, the tool exits
with status 1 (`log.Fatal`), not 2 — the child's exact exit status is not
propagated. -/
theorem exit_status_counterexample :
    worldExit2.childExit = 2 ∧
    (callsOf sampleFlags worldExit2).any isSpawn = true ∧
    exitOf sampleFlags worldExit2 = 1 ∧
    exitOf sampleFlags worldExit2 ≠ 2 := by
  refine ⟨rfl, rfl, rfl, by decide⟩

/-- Claim C4 (amended): when the run reaches the child-process stage and the child
runs, the tool exits 0 exactly when the child exits 0, and exits 1 on any
non-zero child exit status: only success/failure is propagated. -/
theorem exit_status_amended (f : Flags) (w : World) (c : Credentials)
    (prog : String) (rest : List String)
    (h1 : f.roleArn ≠ "") (h2 : w.configResult = .ok ())
    (h3 : w.assumeRoleResult = .ok c)
    (h4 : ∀ e ∈ w.environ, hasEq e = true)
    (h5 : f.args = prog :: rest) :
    (callsOf f w).any isSpawn = true ∧
    (exitOf f w = 0 ↔ w.childExit = 0) ∧
    (w.childExit ≠ 0 → exitOf f w = 1) := by
  have hb : buildEnv c w.environ = .ok (injectedEnv c ++ w.environ.filter keptEntry) := by
    rw [buildEnv, filterEnviron_ok _ h4]
  by_cases hc : w.childExit = 0 <;>
    simp [callsOf, exitOf, runMain, h1, h2, h3, hb, h5, hc, isSpawn]

/-- Witness for C4: the amended statement evaluated on a run whose child exits 0. -/
theorem exit_status_amended_witness :
    (callsOf sampleFlags worldOk).any isSpawn = true ∧
    (exitOf sampleFlags worldOk = 0 ↔ worldOk.childExit = 0) ∧
    (worldOk.childExit ≠ 0 → exitOf sampleFlags worldOk = 1) :=
  exit_status_amended sampleFlags worldOk ⟨"a".data, "b".data, "c".data⟩ "env" []
    (by decide) rfl rfl (by decide) rfl

/-- Claim C5: `ptr` yields `nil` exactly on the zero value, so every optional
request parameter left as the empty string is absent from the outbound
request and is never sent as an empty string. -/
theorem optional_params_omitted :
    (∀ v : String, ptrString v = none ↔ v = "") ∧
    (∀ v : String, ptrString v ≠ some "") ∧
    (∀ n : Int, ptrInt32 n = none ↔ n = 0) ∧
    (∀ (f : Flags) (sn : String),
      ((mkAssumeRoleInput f sn).externalId = none ↔ f.externalID = "") ∧
      ((mkAssumeRoleInput f sn).serialNumber = none ↔ f.serialNumber = "") ∧
      ((mkAssumeRoleInput f sn).tokenCode = none ↔ f.tokenCode = "") ∧
      ((mkAssumeRoleInput f sn).sourceIdentity = none ↔ f.sourceIdentity = "")) := by
  have hp : ∀ v : String, ptrString v = none ↔ v = "" := by
    intro v
    by_cases h : v = "" <;> simp [ptrString, h]
  refine ⟨hp, ?_, ?_, fun f sn => ⟨hp _, hp _, hp _, hp _⟩⟩
  · intro v h
    by_cases hv : v = ""
    · simp [ptrString, hv] at h
    · rw [ptrString, if_neg hv] at h
      exact hv (Option.some.inj h)
  · intro n
    by_cases h : n = 0 <;> simp [ptrInt32, h]

/-- Claim C6: a parent entry without `'='` makes environment construction fail
with the diagnostic `invalid environ`; the process exits 1 with exactly that
diagnostic and spawns no child. -/
theorem invalid_environ_fatal (f : Flags) (w : World) (c : Credentials) (e : Str)
    (h1 : f.roleArn ≠ "") (h2 : w.configResult = .ok ())
    (h3 : w.assumeRoleResult = .ok c)
    (he : e ∈ w.environ) (hne : hasEq e = false) :
    buildEnv c w.environ = .error "invalid environ" ∧
    exitOf f w = 1 ∧
    logsOf f w = ["invalid environ"] ∧
    (callsOf f w).any isSpawn = false := by
  have hb : buildEnv c w.environ = .error "invalid environ" := by
    rw [buildEnv, filterEnviron_error _ e he hne]
  refine ⟨hb, ?_, ?_, ?_⟩ <;>
    simp [exitOf, logsOf, callsOf, runMain, h1, h2, h3, hb, isSpawn]

/-- Witness for C6: a concrete malformed parent environment entry. -/
theorem invalid_environ_fatal_witness :
    buildEnv ⟨"a".data, "b".data, "c".data⟩ worldBadEnv.environ = .error "invalid environ" ∧
    exitOf sampleFlags worldBadEnv = 1 ∧
    logsOf sampleFlags worldBadEnv = ["invalid environ"] ∧
    (callsOf sampleFlags worldBadEnv).any isSpawn = false :=
  invalid_environ_fatal sampleFlags worldBadEnv ⟨"a".data, "b".data, "c".data⟩
    "NOEQUALS".data (by decide) rfl rfl (by decide) (by decide)

/-- Claim C7: with the role ARN flag unset the run makes no external call at all
(no configuration load, no credential request, no spawn), logs
`role-arn is required`, and exits 1 — for every other flag and argument
combination and every world. -/
theorem missing_role_arn_fatal (f : Flags) (w : World) (h : f.roleArn = "") :
    runMain f w = ([], ["role-arn is required"], 1) := by
  simp [runMain, h]

/-- Witness for C7: concrete run with the role ARN left empty. -/
theorem missing_role_arn_fatal_witness :
    runMain { sampleFlags with roleArn := "" } worldOk =
      ([], ["role-arn is required"], 1) :=
  missing_role_arn_fatal _ _ rfl

/-- Claim C8: with zero non-flag arguments remaining, the run logs `no commands`
and exits 0 without spawning a child, even though the credential request was
already made. -/
theorem no_commands_exit_zero (f : Flags) (w : World) (c : Credentials)
    (h1 : f.roleArn ≠ "") (h2 : w.configResult = .ok ())
    (h3 : w.assumeRoleResult = .ok c)
    (h4 : ∀ e ∈ w.environ, hasEq e = true)
    (h5 : f.args = []) :
    exitOf f w = 0 ∧
    logsOf f w = ["no commands"] ∧
    (callsOf f w).any isSpawn = false ∧
    (callsOf f w).any isAssumeRole = true := by
  have hb : buildEnv c w.environ = .ok (injectedEnv c ++ w.environ.filter keptEntry) := by
    rw [buildEnv, filterEnviron_ok _ h4]
  refine ⟨?_, ?_, ?_, ?_⟩ <;>
    simp [exitOf, logsOf, callsOf, runMain, h1, h2, h3, hb, h5, isSpawn, isAssumeRole]

/-- Witness for C8: a concrete run with no remaining arguments. -/
theorem no_commands_exit_zero_witness :
    exitOf { sampleFlags with args := [] } worldOk = 0 ∧
    logsOf { sampleFlags with args := [] } worldOk = ["no commands"] ∧
    (callsOf { sampleFlags with args := [] } worldOk).any isSpawn = false ∧
    (callsOf { sampleFlags with args := [] } worldOk).any isAssumeRole = true :=
  no_commands_exit_zero _ worldOk ⟨"a".data, "b".data, "c".data⟩
    (by decide) rfl rfl (by decide) rfl

theorem log2Aux_spec : ∀ (f n : Nat), 0 < n → n ≤ f →
    2 ^ log2Aux f n ≤ n ∧ n < 2 ^ (log2Aux f n + 1) := by
  intro f
  induction f with
  | zero => intro n h0 h1; omega
  | succ f ih =>
    intro n h0 h1
    rw [log2Aux]
    by_cases h2 : 2 ≤ n
    · rw [if_pos h2]
      obtain ⟨ha, hb⟩ := ih (n / 2) (by omega) (by omega)
      rw [pow_succ] at hb
      rw [pow_succ, pow_succ, pow_succ]
      omega
    · rw [if_neg h2]
      simp only [pow_zero, pow_one]
      omega

theorem natLog2_le (n : Nat) (h : 0 < n) : 2 ^ natLog2 n ≤ n :=
  (log2Aux_spec n n h le_rfl).1

theorem natLog2_lt (n : Nat) (h : 0 < n) : n < 2 ^ (natLog2 n + 1) :=
  (log2Aux_spec n n h le_rfl).2

theorem zpow_ratLog2_le (x : ℚ) (hx : 0 < x) :
    (2:ℚ) ^ ratLog2 x.num.toNat x.den ≤ x := by
  have hnum : 0 < x.num := Rat.num_pos.2 hx
  have hden : 0 < x.den := x.den_pos
  have haa : (x.num.toNat : Int) = x.num := Int.toNat_of_nonneg (le_of_lt hnum)
  set a := x.num.toNat with hadef
  set b := x.den with hbdef
  have ha : 0 < a := by omega
  have hx2 : x = (a : ℚ) / (b : ℚ) := by
    rw [← Rat.num_div_den x, ← haa]
    push_cast
    rfl
  rw [ratLog2]
  by_cases hab : b ≤ a
  · rw [if_pos hab]
    have h1 : 2 ^ natLog2 (a / b) ≤ a / b :=
      natLog2_le _ (Nat.div_pos hab (by omega))
    calc (2:ℚ) ^ (Int.ofNat (natLog2 (a / b)))
        = ((2 ^ natLog2 (a / b) : ℕ) : ℚ) := by
          rw [show (Int.ofNat (natLog2 (a / b))) = ((natLog2 (a / b) : ℕ) : ℤ) from rfl,
            zpow_natCast]
          push_cast
          ring
      _ ≤ ((a / b : ℕ) : ℚ) := by exact_mod_cast h1
      _ ≤ (a : ℚ) / (b : ℚ) := Nat.cast_div_le
      _ = x := hx2.symm
  · rw [if_neg hab]
    push_neg at hab
    have hba : 0 < b / a := Nat.div_pos (by omega) ha
    have hup : b < a * 2 ^ (natLog2 (b / a) + 1) := by
      have h3 : b / a < 2 ^ (natLog2 (b / a) + 1) := natLog2_lt _ hba
      calc b = a * (b / a) + b % a := (Nat.div_add_mod b a).symm
        _ < a * (b / a) + a := by
            have := Nat.mod_lt b ha
            omega
        _ = a * (b / a + 1) := by ring
        _ ≤ a * 2 ^ (natLog2 (b / a) + 1) := Nat.mul_le_mul_left _ (by omega)
    by_cases hcond : b ≤ a * 2 ^ natLog2 (b / a)
    · rw [if_pos hcond]
      rw [hx2, zpow_neg, zpow_natCast, inv_eq_one_div,
        div_le_div_iff₀ (by positivity) (by positivity)]
      have : ((b : ℚ)) ≤ (a : ℚ) * 2 ^ natLog2 (b / a) := by exact_mod_cast hcond
      linarith
    · rw [if_neg hcond]
      rw [show -((natLog2 (b / a) : Int) + 1) = -(((natLog2 (b / a) + 1 : ℕ)) : ℤ) by
        push_cast; ring]
      rw [hx2, zpow_neg, zpow_natCast, inv_eq_one_div,
        div_le_div_iff₀ (by positivity) (by positivity)]
      have : ((b : ℚ)) ≤ (a : ℚ) * 2 ^ (natLog2 (b / a) + 1) := by
        exact_mod_cast le_of_lt hup
      linarith

theorem ratFloor_eq_floor (y : ℚ) : ratFloor y = ⌊y⌋ := by
  rw [ratFloor, Int.fdiv_eq_ediv _ (by positivity), Rat.floor_def]

theorem ratFloor_le (y : ℚ) : ((ratFloor y : ℤ) : ℚ) ≤ y := by
  rw [ratFloor_eq_floor]; exact Int.floor_le y

theorem lt_ratFloor_add_one (y : ℚ) : y < (ratFloor y : ℚ) + 1 := by
  rw [ratFloor_eq_floor]; exact Int.lt_floor_add_one y

theorem roundHalfEven_le (y : ℚ) : (roundHalfEven y : ℚ) ≤ y + 1 / 2 := by
  have hf := ratFloor_le y
  have hf2 := lt_ratFloor_add_one y
  rw [roundHalfEven]
  split_ifs with h1 h2 h3 <;> push_cast <;> linarith

theorem roundHalfEven_ge (y : ℚ) : y - 1 / 2 ≤ (roundHalfEven y : ℚ) := by
  have hf := ratFloor_le y
  have hf2 := lt_ratFloor_add_one y
  rw [roundHalfEven]
  split_ifs with h1 h2 h3 <;> push_cast <;> linarith

theorem roundHalfEven_intCast (k : ℤ) : roundHalfEven ((k : ℚ)) = k := by
  have hk : ratFloor ((k : ℚ)) = k := by
    rw [ratFloor_eq_floor, Int.floor_intCast]
  rw [roundHalfEven, hk, if_pos (by linarith)]

theorem roundNearestPos_bounds (x : ℚ) :
    x - (2:ℚ) ^ (ratLog2 x.num.toNat x.den - 53) ≤ roundNearestPos x ∧
    roundNearestPos x ≤ x + (2:ℚ) ^ (ratLog2 x.num.toNat x.den - 53) := by
  set e := ratLog2 x.num.toNat x.den with he
  have h2t : (0:ℚ) < 2 ^ (e - 52) := zpow_pos (by norm_num) _
  have hup := roundHalfEven_le (x / 2 ^ (e - 52))
  have hlo := roundHalfEven_ge (x / 2 ^ (e - 52))
  have hcancel : x / 2 ^ (e - 52) * 2 ^ (e - 52) = x :=
    div_mul_cancel₀ x (ne_of_gt h2t)
  have hexp : (2:ℚ) ^ (e - 53) = 2 ^ (e - 52) * (1 / 2) := by
    rw [show e - 53 = (e - 52) + (-1) by ring, zpow_add₀ (by norm_num : (2:ℚ) ≠ 0)]
    norm_num
  rw [roundNearestPos, ← he]
  constructor
  · have h := mul_le_mul_of_nonneg_right hlo (le_of_lt h2t)
    rw [sub_mul, hcancel] at h
    rw [hexp]
    linarith
  · have h := mul_le_mul_of_nonneg_right hup (le_of_lt h2t)
    rw [add_mul, hcancel] at h
    rw [hexp]
    linarith

theorem roundNearest64_pos_bounds (x : ℚ) (hx : 0 < x) (B : ℤ)
    (hB : x < (2:ℚ) ^ B) :
    x - (2:ℚ) ^ (B - 54) ≤ roundNearest64 x ∧
    roundNearest64 x ≤ x + (2:ℚ) ^ (B - 54) := by
  rw [roundNearest64, if_pos hx]
  have hle := zpow_ratLog2_le x hx
  have heB : ratLog2 x.num.toNat x.den < B := by
    by_contra h
    push_neg at h
    have : (2:ℚ) ^ B ≤ (2:ℚ) ^ ratLog2 x.num.toNat x.den :=
      zpow_le_zpow_right₀ (by norm_num) h
    linarith
  have hmono : (2:ℚ) ^ (ratLog2 x.num.toNat x.den - 53) ≤ (2:ℚ) ^ (B - 54) :=
    zpow_le_zpow_right₀ (by norm_num) (by omega)
  obtain ⟨h1, h2⟩ := roundNearestPos_bounds x
  exact ⟨by linarith, by linarith⟩

theorem roundNearest64_zero : roundNearest64 0 = 0 := by
  rw [roundNearest64]
  norm_num

theorem roundNearest64_intCast (n : ℤ) (h0 : 0 ≤ n) (h53 : n < 2 ^ 53) :
    roundNearest64 ((n : ℚ)) = (n : ℚ) := by
  rcases eq_or_lt_of_le h0 with h | hpos
  · rw [← h]
    push_cast
    exact roundNearest64_zero
  have hx : (0:ℚ) < (n : ℚ) := by exact_mod_cast hpos
  rw [roundNearest64, if_pos hx]
  set e := ratLog2 ((n:ℚ)).num.toNat ((n:ℚ)).den with he
  have hle : (2:ℚ) ^ e ≤ (n : ℚ) := zpow_ratLog2_le _ hx
  have he52 : e ≤ 52 := by
    by_contra h
    push_neg at h
    have h1 : (2:ℚ) ^ (53 : ℤ) ≤ (2:ℚ) ^ e := zpow_le_zpow_right₀ (by norm_num) (by omega)
    have h2 : ((n : ℚ)) < (2:ℚ) ^ (53 : ℤ) := by
      have : ((2:ℤ) ^ (53:ℕ) : ℚ) = (2:ℚ) ^ (53:ℤ) := by
        push_cast
        rw [← zpow_natCast]
        norm_num
      rw [← this]
      exact_mod_cast h53
    linarith
  obtain ⟨k, hk⟩ : ∃ k : ℕ, (k : ℤ) = 52 - e := ⟨(52 - e).toNat, Int.toNat_of_nonneg (by omega)⟩
  have h2k : ((2:ℚ) ^ (k:ℕ)) ≠ 0 := by positivity
  have hy : (n : ℚ) / (2:ℚ) ^ (e - 52) = ((n * 2 ^ k : ℤ) : ℚ) := by
    rw [show e - 52 = -((52 : ℤ) - e) by ring, ← hk, zpow_neg, zpow_natCast]
    rw [div_eq_mul_inv, inv_inv]
    push_cast
    ring
  rw [roundNearestPos, ← he, hy, roundHalfEven_intCast]
  rw [show e - 52 = -((52 : ℤ) - e) by ring, ← hk, zpow_neg, zpow_natCast]
  push_cast
  field_simp

theorem tdiv_num_den_eq (x : ℚ) (q : ℤ) (hq : 0 ≤ q) (h0 : (q : ℚ) ≤ x)
    (h1 : x < (q : ℚ) + 1) : x.num.tdiv ((x.den : ℕ) : ℤ) = q := by
  have hx0 : (0:ℚ) ≤ x := le_trans (by exact_mod_cast hq) h0
  have hnum : 0 ≤ x.num := Rat.num_nonneg.2 hx0
  have hden : 0 < x.den := x.den_pos
  obtain ⟨n, hn⟩ := Int.eq_ofNat_of_zero_le hnum
  obtain ⟨k, hk⟩ := Int.eq_ofNat_of_zero_le hq
  have hdQ : (0:ℚ) < (x.den : ℚ) := by exact_mod_cast hden
  have hxeq : x = (n : ℚ) / (x.den : ℚ) := by
    nth_rewrite 1 [← Rat.num_div_den x]
    rw [hn]
    push_cast
    ring
  have hlow : k * x.den ≤ n := by
    have hq1 : ((k : ℚ)) * (x.den : ℚ) ≤ (n : ℚ) := by
      rw [hxeq, hk] at h0
      push_cast at h0
      rw [le_div_iff₀ hdQ] at h0
      linarith
    exact_mod_cast hq1
  have hhigh : n < (k + 1) * x.den := by
    have hq2 : ((n : ℚ)) < ((k : ℚ) + 1) * (x.den : ℚ) := by
      rw [hxeq, hk] at h1
      push_cast at h1
      rw [div_lt_iff₀ hdQ] at h1
      linarith
    exact_mod_cast hq2
  have hnat : n / x.den = k := Nat.div_eq_of_lt_le hlow hhigh
  rw [hn, hk]
  show (Int.ofNat n).tdiv (Int.ofNat x.den) = Int.ofNat k
  rw [show (Int.ofNat n).tdiv (Int.ofNat x.den) = Int.ofNat (n / x.den) from rfl, hnat]

theorem tdiv_tmod_decompose (q r : Int) (hq : 0 ≤ q) (hr0 : 0 ≤ r)
    (hr : r < 1000000000) :
    (q * 1000000000 + r).tdiv 1000000000 = q ∧
    (q * 1000000000 + r).tmod 1000000000 = r := by
  have ha : 0 ≤ q * 1000000000 + r := by omega
  obtain ⟨m, hm⟩ := Int.eq_ofNat_of_zero_le ha
  have hm' : ((m : ℕ) : ℤ) = q * 1000000000 + r := hm.symm
  rw [hm]
  constructor
  · show ((m / 1000000000 : ℕ) : ℤ) = q
    omega
  · show ((m % 1000000000 : ℕ) : ℤ) = r
    omega

theorem durationSecondsInt32_eq (q r : Int) (hq0 : 0 ≤ q) (hq : q < 16777216)
    (hr0 : 0 ≤ r) (hr : r < 1000000000) :
    durationSecondsInt32 (q * 1000000000 + r) = q := by
  obtain ⟨hsec, hnsec⟩ := tdiv_tmod_decompose q r hq0 hr0 hr
  rw [durationSecondsInt32, durationSecondsFloat, hsec, hnsec]
  have hqQ : roundNearest64 ((q : ℚ)) = (q : ℚ) :=
    roundNearest64_intCast q hq0 (lt_trans hq (by norm_num))
  have hrQ : roundNearest64 ((r : ℚ)) = (r : ℚ) :=
    roundNearest64_intCast r hr0 (lt_trans hr (by norm_num))
  rw [hqQ, hrQ]
  by_cases hr' : r = 0
  · subst hr'
    simp only [Int.cast_zero, zero_div, roundNearest64_zero, add_zero]
    rw [hqQ]
    exact tdiv_num_den_eq _ q hq0 le_rfl (by linarith)
  · have hw0 : (0:ℚ) < (r : ℚ) / 1000000000 := by
      have : (0:ℚ) < (r : ℚ) := by exact_mod_cast (by omega : (0:ℤ) < r)
      positivity
    have hw1 : (r : ℚ) / 1000000000 < 1 := by
      rw [div_lt_one (by norm_num)]
      exact_mod_cast hr
    have hwle : (r : ℚ) / 1000000000 ≤ 999999999 / 1000000000 := by
      have : (r : ℚ) ≤ 999999999 := by exact_mod_cast (by omega : r ≤ (999999999:ℤ))
      rw [div_le_div_iff₀ (by norm_num) (by norm_num)]
      linarith
    have hwge : (1:ℚ) / 1000000000 ≤ (r : ℚ) / 1000000000 := by
      have : (1:ℚ) ≤ (r : ℚ) := by exact_mod_cast (by omega : (1:ℤ) ≤ r)
      rw [div_le_div_iff₀ (by norm_num) (by norm_num)]
      linarith
    obtain ⟨hblo, hbhi⟩ :=
      roundNearest64_pos_bounds _ hw0 0 (by rw [zpow_zero]; exact hw1)
    have hc54 : (2:ℚ) ^ ((0:ℤ) - 54) = 1 / 18014398509481984 := by
      rw [show (0:ℤ) - 54 = -((54:ℕ):ℤ) by norm_num, zpow_neg, zpow_natCast]
      norm_num
    rw [hc54] at hblo hbhi
    set bq := roundNearest64 ((r : ℚ) / 1000000000) with hbqdef
    by_cases hq' : q = 0
    · subst hq'
      simp only [Int.cast_zero, zero_add]
      have hbq0 : (0:ℚ) < bq := by linarith
      have hbq1 : bq < 1 := by linarith
      obtain ⟨hs3lo, hs3hi⟩ :=
        roundNearest64_pos_bounds bq hbq0 0 (by rw [zpow_zero]; exact hbq1)
      rw [hc54] at hs3lo hs3hi
      apply tdiv_num_den_eq _ 0 le_rfl
      · push_cast
        linarith
      · push_cast
        linarith
    · have hq1 : (1:ℚ) ≤ (q : ℚ) := by exact_mod_cast (by omega : (1:ℤ) ≤ q)
      have hz0 : (0:ℚ) < (q : ℚ) + bq := by linarith
      have hqle : (q : ℚ) ≤ 16777215 := by
        exact_mod_cast (by omega : q ≤ (16777215:ℤ))
      have hz24 : (q : ℚ) + bq < (2:ℚ) ^ (24:ℤ) := by
        have h24 : (2:ℚ) ^ (24:ℤ) = 16777216 := by
          rw [show (24:ℤ) = ((24:ℕ):ℤ) by norm_num, zpow_natCast]
          norm_num
        rw [h24]
        linarith
      obtain ⟨hs3lo, hs3hi⟩ := roundNearest64_pos_bounds _ hz0 24 hz24
      have hc30 : (2:ℚ) ^ ((24:ℤ) - 54) = 1 / 1073741824 := by
        rw [show (24:ℤ) - 54 = -((30:ℕ):ℤ) by norm_num, zpow_neg, zpow_natCast]
        norm_num
      rw [hc30] at hs3lo hs3hi
      apply tdiv_num_den_eq _ q hq0
      · linarith
      · linarith

/-- Counterexample for C9: at a configured duration of 16777216 s (2^24 s)
plus 999999999 ns, binary64 arithmetic rounds `duration.Seconds()` up to the
next whole second, so the request carries 16777217 while the whole-second
truncation of the configured duration is 16777216: the sent duration is not
always the truncation. -/
theorem duration_truncation_counterexample :
    (mkAssumeRoleInput overflowFlags "s").durationSeconds = some 16777217 ∧
    overflowFlags.durationNs.tdiv 1000000000 = 16777216 ∧
    (16777217 : Int) ≠ 16777216 := by
  refine ⟨?_, by decide, by decide⟩
  show ptrInt32 (durationSecondsInt32 overflowFlags.durationNs) = some 16777217
  have h : durationSecondsInt32 overflowFlags.durationNs = 16777217 := by
    with_unfolding_all rfl
  rw [h]
  rfl

/-- Claim C9 (amended): for configured durations of fewer than 2^24 whole
seconds (in particular every duration the token service accepts), the
duration sent is the whole-second truncation of the configured duration,
wrapped in `ptr`; a sub-second duration truncates to 0 and the
`DurationSeconds` field is then omitted entirely. From 2^24 seconds upward,
binary64 rounding of `duration.Seconds()` can carry the value to the next
whole second (see the counterexample), so exact truncation stops there. -/
theorem duration_truncated_omitted_subsecond (f : Flags) (sn : String)
    (q r : Int) (hq0 : 0 ≤ q) (hq : q < 16777216) (hr0 : 0 ≤ r)
    (hr : r < 1000000000) (hd : f.durationNs = q * 1000000000 + r) :
    (mkAssumeRoleInput f sn).durationSeconds = ptrInt32 q ∧
    (q = 0 → (mkAssumeRoleInput f sn).durationSeconds = none) := by
  have h := durationSecondsInt32_eq q r hq0 hq hr0 hr
  constructor
  · show ptrInt32 (durationSecondsInt32 f.durationNs) = ptrInt32 q
    rw [hd, h]
  · intro h0q
    show ptrInt32 (durationSecondsInt32 f.durationNs) = none
    rw [hd, h, h0q]
    rfl

/-- Witness for C9: a 0.5-second duration is omitted from the request. -/
theorem duration_truncated_omitted_subsecond_witness :
    (mkAssumeRoleInput subsecondFlags "s").durationSeconds = ptrInt32 0 ∧
    ((0 : Int) = 0 → (mkAssumeRoleInput subsecondFlags "s").durationSeconds = none) :=
  duration_truncated_omitted_subsecond subsecondFlags "s" 0 500000000
    (by decide) (by decide) (by decide) (by decide) (by decide)

theorem denylist_take_eq_self :
    ∀ d ∈ denylist, ∀ d' ∈ denylist, d'.take d.length = d → d' = d := by decide

theorem not_denylist_of_near_miss (x : Str)
    (h : (∃ d t, d ∈ denylist ∧ t ≠ [] ∧ x = d ++ t) ∨
         (∃ d t, d ∈ denylist ∧ t ≠ [] ∧ x ++ t = d)) :
    x ∉ denylist := by
  intro hx
  rcases h with ⟨d, t, hd, ht, hxdt⟩ | ⟨d, t, hd, ht, hxtd⟩
  · have h1 : x.take d.length = d := by rw [hxdt]; simp
    have h2 := denylist_take_eq_self d hd x hx h1
    rw [hxdt] at h2
    have hl := congrArg List.length h2
    simp [List.length_append] at hl
    exact ht hl
  · have h1 : d.take x.length = x := by rw [← hxtd]; simp
    have h2 := denylist_take_eq_self x hx d hd h1
    have hl := congrArg List.length (hxtd.trans h2)
    simp [List.length_append] at hl
    exact ht hl

/-- Claim C10: the denylist filter compares the full key for exact equality, so a
parent entry whose key strictly extends a denylisted name, or is a strict
prefix of one, is preserved in the built environment. -/
theorem near_miss_keys_preserved (c : Credentials) (E env : List Str) (e : Str)
    (hok : buildEnv c E = .ok env) (he : e ∈ E)
    (hnear : (∃ d t, d ∈ denylist ∧ t ≠ [] ∧ cutKey e = d ++ t) ∨
             (∃ d t, d ∈ denylist ∧ t ≠ [] ∧ cutKey e ++ t = d)) :
    e ∈ env := by
  have hnd : cutKey e ∉ denylist := not_denylist_of_near_miss _ hnear
  rw [buildEnv_ok_eq c E env hok]
  refine List.mem_append_right _ (List.mem_filter.2 ⟨he, ?_⟩)
  rw [keptEntry]
  exact decide_eq_true hnd

/-- Witness for C10: `AWS_SESSION_TOKEN_BACKUP=x` survives filtering although its
key strictly extends the denylisted `AWS_SESSION_TOKEN`. -/
theorem near_miss_keys_preserved_witness :
    "AWS_SESSION_TOKEN_BACKUP=x".data ∈
      (injectedEnv ⟨"a".data, "b".data, "c".data⟩ ++
        ["AWS_SESSION_TOKEN_BACKUP=x".data]) :=
  near_miss_keys_preserved ⟨"a".data, "b".data, "c".data⟩
    ["AWS_SESSION_TOKEN_BACKUP=x".data] _ _ (by rfl) (by decide)
    (Or.inl ⟨"AWS_SESSION_TOKEN".data, "_BACKUP".data, by decide, by decide, by decide⟩)

end AwsAssumeRole
